import Mathlib

/-!
A verification development for the binding & auto-publish core of the
xrm-webresource-publisher repository.  Go functions are shallowly embedded
as executable Lean definitions: Go strings become Lean `String`/`List Char`,
Go maps become association lists, fallible calls return `Option`/`Except`,
and the HTTP transport, the file system and the clock are passed in as
explicit oracles.  Time stamps are integers in milliseconds.
-/

namespace XrmPublisher

/-! ## Go string primitives used by the embedded code -/

/-- Model of Go `strings.Split(s, sep)` for a one-character separator,
working on the character list of the string.  `strings.Split("", ".")`
yields `[""]`, which the base case mirrors. -/
def splitChar (sep : Char) : List Char → List (List Char)
  | [] => [[]]
  | c :: cs =>
    if c = sep then [] :: splitChar sep cs
    else
      match splitChar sep cs with
      | [] => [[c]]
      | p :: ps => (c :: p) :: ps

/-- Numeric value of a list of decimal digit characters, most significant
first, as folded up by Go's `strconv.ParseInt` main loop. -/
def digitsToNat (ds : List Char) : Nat :=
  ds.foldl (fun a c => a * 10 + (c.toNat - 48)) 0

/-- Digit-and-range phase of Go `strconv.ParseInt(s, 10, 0)` after the sign
has been stripped: at least one decimal digit, with the int64 range check;
anything else, and any out-of-range value, is an error (`none`). -/
def goAtoiCore (neg : Bool) (ds : List Char) : Option Int :=
  if ds = [] then none
  else if ds.all Char.isDigit then
    if neg then
      if digitsToNat ds ≤ 2 ^ 63 then some (-(digitsToNat ds : Int)) else none
    else
      if digitsToNat ds ≤ 2 ^ 63 - 1 then some ((digitsToNat ds : Int)) else none
  else none

/-- Model of Go `strconv.Atoi` (= `ParseInt(s, 10, 0)` on a 64-bit
platform): reject the empty string, strip one optional leading sign, then
parse the remaining decimal digits. -/
def goAtoi (cs : List Char) : Option Int :=
  if cs = [] then none
  else
    goAtoiCore (cs.head? = some '-')
      (if cs.head? = some '-' ∨ cs.head? = some '+' then cs.tail else cs)

/-! ## `incrementVersion` (internal/tui/update.go) -/

/-- Reduction of an integer into the two's-complement range of Go's 64-bit
`int`, used to model `minor + 1` overflowing (Go wraps silently). -/
def wrapInt64 (n : Int) : Int := (n + 2 ^ 63) % 2 ^ 64 - 2 ^ 63

/-- Embedding of `incrementVersion`: split on `.`; when there are exactly
three parts and the third parses with `strconv.Atoi`, bump it (a 64-bit
`int` addition, wrapping at `2^63 - 1`) and rejoin with
`strings.Join(parts, ".")`; otherwise return `"1.0.1"`. -/
def incrementVersion (version : String) : String :=
  match splitChar '.' version.toList with
  | [a, b, c] =>
    match goAtoi c with
    | some minor =>
      String.mk (List.intercalate ['.'] [a, b, (toString (wrapInt64 (minor + 1))).toList])
    | none => "1.0.1"
  | _ => "1.0.1"

/-! Helper lemmas about `splitChar` and `goAtoi`. -/

theorem splitChar_append_cons (sep : Char) (a rest : List Char)
    (ha : sep ∉ a) :
    splitChar sep (a ++ sep :: rest) = a :: splitChar sep rest := by
  induction a with
  | nil => simp [splitChar]
  | cons c cs ih =>
    have hc : ¬ c = sep := by
      intro h; exact ha (by simp [h])
    have hcs : sep ∉ cs := fun h => ha (List.mem_cons_of_mem _ h)
    simp only [List.cons_append, splitChar, List.append_eq, if_neg hc, ih hcs]

theorem splitChar_no_sep (sep : Char) (a : List Char) (ha : sep ∉ a) :
    splitChar sep a = [a] := by
  induction a with
  | nil => simp [splitChar]
  | cons c cs ih =>
    have hc : ¬ c = sep := by
      intro h; exact ha (by simp [h])
    have hcs : sep ∉ cs := fun h => ha (List.mem_cons_of_mem _ h)
    simp only [splitChar, List.append_eq, if_neg hc, ih hcs]

theorem goAtoiCore_all_digits (neg : Bool) (ds : List Char) (n : Int)
    (h : goAtoiCore neg ds = some n) : ds.all Char.isDigit = true := by
  unfold goAtoiCore at h
  split at h
  · exact absurd h (by simp)
  · split at h
    · assumption
    · exact absurd h (by simp)

theorem goAtoi_no_dot (cs : List Char) (n : Int) (h : goAtoi cs = some n) :
    '.' ∉ cs := by
  intro hmem
  unfold goAtoi at h
  split at h
  · exact absurd h (by simp)
  · rename_i hne
    have hall := goAtoiCore_all_digits _ _ _ h
    have hdot : '.' ∈
        (if cs.head? = some '-' ∨ cs.head? = some '+' then cs.tail else cs) := by
      by_cases hsign : cs.head? = some '-' ∨ cs.head? = some '+'
      · rw [if_pos hsign]
        rcases cs with _ | ⟨c, rest⟩
        · exact absurd rfl hne
        · rcases List.mem_cons.mp hmem with hc | hr
          · rcases hsign with h1 | h1 <;>
              (simp only [List.head?_cons, Option.some_inj] at h1;
               subst h1; exact absurd hc (by decide))
          · simpa using hr
      · rw [if_neg hsign]; exact hmem
    have := List.all_eq_true.mp hall _ hdot
    exact absurd this (by decide)

theorem intercalate_three (d : Char) (x y z : List Char) :
    List.intercalate [d] [x, y, z] = x ++ d :: (y ++ d :: z) := by
  simp [List.intercalate, List.intersperse]

/-- C1 (amended): bumping behaves per the claim except that only the third
dot-separated part must parse as an integer — the first two parts are kept
verbatim — and the increment is a 64-bit `int` addition, so
`9223372036854775807` wraps to `-9223372036854775808`.  Non-three-part
strings and strings whose third part is not an integer (including
out-of-int64-range digits) reset to `"1.0.1"`, and the three quoted
examples hold. -/
theorem thmC1_incrementVersion :
    (∀ (a b ds : List Char) (n : Int), '.' ∉ a → '.' ∉ b →
        goAtoi ds = some n →
        incrementVersion (String.mk (a ++ '.' :: (b ++ '.' :: ds))) =
          String.mk (a ++ '.' :: (b ++ '.' :: (toString (wrapInt64 (n + 1))).toList)))
    ∧ (∀ v : String, (splitChar '.' v.toList).length ≠ 3 →
        incrementVersion v = "1.0.1")
    ∧ (∀ (v : String) (a b ds : List Char),
        splitChar '.' v.toList = [a, b, ds] → goAtoi ds = none →
        incrementVersion v = "1.0.1")
    ∧ incrementVersion "1.0.12" = "1.0.13"
    ∧ incrementVersion "malformed" = "1.0.1"
    ∧ incrementVersion "1.2" = "1.0.1"
    ∧ incrementVersion "1.0.9223372036854775807" = "1.0.-9223372036854775808" := by
  refine ⟨?_, ?_, ?_, by decide, by decide, by decide, by decide⟩
  · intro a b ds n ha hb hds
    have hd : '.' ∉ ds := goAtoi_no_dot ds n hds
    unfold incrementVersion
    have h1 : (String.mk (a ++ '.' :: (b ++ '.' :: ds))).toList =
        a ++ '.' :: (b ++ '.' :: ds) := rfl
    rw [h1, splitChar_append_cons _ _ _ ha, splitChar_append_cons _ _ _ hb,
      splitChar_no_sep _ _ hd]
    simp only [hds]
    rw [intercalate_three]
  · intro v hlen
    unfold incrementVersion
    rcases hsp : splitChar '.' v.toList with _ | ⟨a, _ | ⟨b, _ | ⟨c, _ | ⟨d, e⟩⟩⟩⟩ <;>
      simp_all
  · intro v a b ds hsp hds
    simp only [incrementVersion, hsp, hds]

/-- C1 counterexample: `"a.b.2"` does not parse as three dot-separated
integers (`"a"` and `"b"` are not integers), yet `incrementVersion`
returns `"a.b.3"`, not the `"1.0.1"` the claim requires. -/
theorem thmC1_counterexample :
    goAtoi "a".toList = none ∧ goAtoi "b".toList = none ∧
    incrementVersion "a.b.2" = "a.b.3" ∧ incrementVersion "a.b.2" ≠ "1.0.1" := by
  decide

/-- Witness for C1: the amended theorem applied at `1.0.12`. -/
theorem thmC1_incrementVersion_witness :
    incrementVersion (String.mk (['1'] ++ '.' :: (['0'] ++ '.' :: ['1', '2']))) =
      String.mk (['1'] ++ '.' :: (['0'] ++ '.' ::
        (toString (wrapInt64 ((12 : Int) + 1))).toList)) :=
  thmC1_incrementVersion.1 ['1'] ['0'] ['1', '2'] 12 (by decide) (by decide)
    (by decide)

/-! ## Remote client request primitive (internal/d365/client.go) -/

/-- An HTTP response as the client observes it: status code and body. -/
structure HTTPResponse where
  status : Nat
  body : String
deriving DecidableEq

/-- Result of one call of the request primitive: a body on 2xx/3xx, the
`ErrUnauthorized` error on 401, or the `API error` wrapper otherwise. -/
inductive ReqResult where
  | ok (body : String)
  | unauthorized
  | apiError (status : Nat) (body : String)
deriving DecidableEq

/-- The response classification done after the 401 branch of
`doRequestWithRetry`. -/
def classifyResponse (r : HTTPResponse) : ReqResult :=
  if r.status = 401 then .unauthorized
  else if 400 ≤ r.status then .apiError r.status r.body
  else .ok r.body

/-- Embedding of `Client.doRequestWithRetry`.  The transport is an oracle
mapping (attempt index, bearer token) to the response; `tokenRefresh` is
`none` when no refresh callback is set, `some none` when the callback is
set but fails, and `some (some t)` when it returns token `t` without
error.  Besides the result, the model returns the list of tokens used by
the transport attempts (one entry per attempt, in order) and the number of
refresh-callback invocations. -/
def doRequestWithRetry (transport : Nat -> String -> HTTPResponse)
    (tokenRefresh : Option (Option String)) :
    Bool -> String -> Nat -> ReqResult × List String × Nat
  | allowRetry, token, idx =>
    let resp := transport idx token
    if resp.status = 401 then
      match allowRetry, tokenRefresh with
      | true, some (some newToken) =>
        if newToken = "" then (.unauthorized, [token], 1)
        else
          let r := doRequestWithRetry transport tokenRefresh false newToken (idx + 1)
          (r.1, token :: r.2.1, r.2.2 + 1)
      | true, some none => (.unauthorized, [token], 1)
      | _, _ => (.unauthorized, [token], 0)
    else if 400 ≤ resp.status then (.apiError resp.status resp.body, [token], 0)
    else (.ok resp.body, [token], 0)
termination_by b _ _ => b.toNat
decreasing_by decide

/-- Embedding of `Client.doRequest`: the single request primitive every
typed client operation funnels through (`allowRetry = true`). -/
def doRequest (transport : Nat -> String -> HTTPResponse)
    (tokenRefresh : Option (Option String)) (token : String) :
    ReqResult × List String × Nat :=
  doRequestWithRetry transport tokenRefresh true token 0

theorem doRequestWithRetry_noRetry (transport : Nat -> String -> HTTPResponse)
    (tr : Option (Option String)) (token : String) (idx : Nat) :
    doRequestWithRetry transport tr false token idx =
      (classifyResponse (transport idx token), [token], 0) := by
  rcases tr with _ | ⟨_ | t⟩ <;>
    by_cases h : (transport idx token).status = 401 <;>
      by_cases h4 : 400 ≤ (transport idx token).status <;>
        simp [doRequestWithRetry, classifyResponse, h, h4]

theorem doRequest_eq (transport : Nat -> String -> HTTPResponse)
    (tr : Option (Option String)) (token : String) :
    doRequest transport tr token =
      (if (transport 0 token).status = 401 then
        match tr with
        | some (some newToken) =>
          if newToken = "" then (.unauthorized, [token], 1)
          else (classifyResponse (transport 1 newToken), [token, newToken], 1)
        | some none => (.unauthorized, [token], 1)
        | none => (.unauthorized, [token], 0)
      else (classifyResponse (transport 0 token), [token], 0)) := by
  unfold doRequest
  by_cases h401 : (transport 0 token).status = 401
  · rcases tr with _ | ⟨_ | t⟩
    · simp [doRequestWithRetry, h401]
    · simp [doRequestWithRetry, h401]
    · by_cases ht : t = ""
      · subst ht; simp [doRequestWithRetry, h401]
      · simp [doRequestWithRetry, h401, ht, doRequestWithRetry_noRetry]
  · rcases tr with _ | ⟨_ | t⟩ <;>
      by_cases h4 : 400 ≤ (transport 0 token).status <;>
        simp [doRequestWithRetry, classifyResponse, h401, h4]

/-- C2: with a refresh callback configured, a 401 response triggers exactly
one refresh; on refresh success there is exactly one retry carrying the new
token, whose 401 is final; on refresh failure the call returns the
unauthorized error after a single attempt; and no call ever makes more than
two transport attempts. -/
theorem thmC2_doRequest_retry_policy (transport : Nat -> String -> HTTPResponse)
    (r : Option String) (token : String) :
    (doRequest transport (some r) token).2.1.length ≤ 2 ∧
    (doRequest transport (some r) token).2.2 ≤ 1 ∧
    ((transport 0 token).status = 401 →
      (doRequest transport (some r) token).2.2 = 1 ∧
      (r = none → doRequest transport (some r) token = (.unauthorized, [token], 1)) ∧
      (∀ t, r = some t → ¬ t = "" →
        doRequest transport (some r) token =
          (classifyResponse (transport 1 t), [token, t], 1) ∧
        ((transport 1 t).status = 401 →
          (doRequest transport (some r) token).1 = .unauthorized))) := by
  rw [doRequest_eq]
  by_cases h401 : (transport 0 token).status = 401
  · rcases r with _ | t
    · simp [h401]
    · by_cases ht : t = ""
      · subst ht
        simp [h401]
      · simp only [h401, if_pos rfl, ht, if_neg ht]
        refine ⟨by simp, by simp, fun _ => ⟨rfl, by simp, ?_⟩⟩
        intro u hu hne
        have : u = t := by injection hu with h; exact h.symm
        subst this
        refine ⟨rfl, fun h2 => ?_⟩
        simp [classifyResponse, h2]
  · simp [h401]

/-- Witness for C2: a transport answering 401 first and 200 second, with a
refresh callback returning the fresh token `"t2"`. -/
theorem thmC2_doRequest_retry_policy_witness :
    doRequest (fun idx _ => if idx = 0 then ⟨401, "denied"⟩ else ⟨200, "payload"⟩)
        (some (some "t2")) "t1" =
      (classifyResponse ((fun (idx : Nat) (_ : String) =>
          if idx = 0 then (⟨401, "denied"⟩ : HTTPResponse) else ⟨200, "payload"⟩) 1 "t2"),
        ["t1", "t2"], 1) :=
  (((thmC2_doRequest_retry_policy
      (fun idx _ => if idx = 0 then ⟨401, "denied"⟩ else ⟨200, "payload"⟩)
      (some "t2") "t1").2.2 (by decide)).2.2 "t2" rfl (by decide)).1

/-! ## Environment URL validation (internal/config, `ValidateEnvironmentURL`) -/

/-- A character matched by the `[a-zA-Z0-9-]` class of the URL pattern. -/
def isURLHostChar (c : Char) : Bool := c.isAlpha || c.isDigit || c = '-'

/-- Matcher for the `\.crm[0-9]*\.dynamics\.com$` tail of the pattern. -/
def crmTail (cs : List Char) : Bool :=
  decide (cs.take 4 = ".crm".data) &&
  decide ((cs.drop 4).dropWhile Char.isDigit = ".dynamics.com".data)

/-- Full-string matcher for the Go pattern
`^https://[a-zA-Z0-9-]+\.crm[0-9]*\.dynamics\.com$` (with `^`/`$` anchored
at the ends of the text, as in RE2 without multiline mode). -/
def regexMatchD365 (cs : List Char) : Bool :=
  decide (cs.take 8 = "https://".data) &&
  (decide (¬ (cs.drop 8).takeWhile isURLHostChar = []) &&
   crmTail ((cs.drop 8).dropWhile isURLHostChar))

/-- Model of Go `strings.HasPrefix`. -/
def goHasPfx (s p : String) : Bool := p.data.isPrefixOf s.data

/-- Embedding of `ValidateEnvironmentURL`, as a Boolean acceptor: the
explicit `https://` prefix check followed by the regexp match. -/
def validateEnvironmentURL (url : String) : Bool :=
  goHasPfx url "https://" && regexMatchD365 url.data

/-- The language of the claim's regex
`^https://[A-Za-z0-9-]+\.crm[0-9]*\.dynamics\.com$`, written from the
spec as an explicit decomposition. -/
def d365URLGrammar (s : String) : Prop :=
  ∃ host ds : List Char,
    host ≠ [] ∧ (∀ c ∈ host, isURLHostChar c = true) ∧
    (∀ c ∈ ds, c.isDigit = true) ∧
    s.data = "https://".data ++ host ++ ".crm".data ++ ds ++ ".dynamics.com".data

theorem takeWhile_append_not (p : Char -> Bool) (xs : List Char) (y : Char)
    (ys : List Char) (hxs : ∀ c ∈ xs, p c = true) (hy : p y = false) :
    (xs ++ y :: ys).takeWhile p = xs := by
  induction xs with
  | nil => simp [List.takeWhile, hy]
  | cons c cs ih =>
    have hc : p c = true := hxs c (by simp)
    have hcs : ∀ x ∈ cs, p x = true := fun x hx => hxs x (by simp [hx])
    simp [List.takeWhile_cons, hc, ih hcs]

theorem dropWhile_append_not (p : Char -> Bool) (xs : List Char) (y : Char)
    (ys : List Char) (hxs : ∀ c ∈ xs, p c = true) (hy : p y = false) :
    (xs ++ y :: ys).dropWhile p = y :: ys := by
  induction xs with
  | nil => simp [List.dropWhile, hy]
  | cons c cs ih =>
    have hc : p c = true := hxs c (by simp)
    have hcs : ∀ x ∈ cs, p x = true := fun x hx => hxs x (by simp [hx])
    simp [List.dropWhile_cons, hc, ih hcs]

/-- C8: the URL validator accepts exactly the language of the regex
`^https://[A-Za-z0-9-]+\.crm[0-9]*\.dynamics\.com$`, and in particular
decides the six quoted examples as the claim states. -/
theorem thmC8_validateEnvironmentURL :
    (∀ s : String, validateEnvironmentURL s = true ↔ d365URLGrammar s)
    ∧ validateEnvironmentURL "https://myorg.crm.dynamics.com" = true
    ∧ validateEnvironmentURL "https://myorg.crm4.dynamics.com" = true
    ∧ validateEnvironmentURL "https://myorg-dev.crm11.dynamics.com" = true
    ∧ validateEnvironmentURL "http://myorg.crm.dynamics.com" = false
    ∧ validateEnvironmentURL "https://myorg.dynamics.com" = false
    ∧ validateEnvironmentURL "https://myorg.crmx.dynamics.com" = false := by
  refine ⟨?_, by decide, by decide, by decide, by decide, by decide, by decide⟩
  intro s
  constructor
  · intro h
    unfold validateEnvironmentURL regexMatchD365 crmTail at h
    simp only [Bool.and_eq_true, decide_eq_true_eq] at h
    obtain ⟨-, h8, hne, hcrm, hdyn⟩ := h
    set rest := s.data.drop 8 with hrest
    set host := rest.takeWhile isURLHostChar with hhost
    set rem := rest.dropWhile isURLHostChar with hrem
    set t := rem.drop 4 with ht
    refine ⟨host, t.takeWhile Char.isDigit, hne, ?_, ?_, ?_⟩
    · exact fun c hc => List.mem_takeWhile_imp hc
    · exact fun c hc => List.mem_takeWhile_imp hc
    · have hs : s.data = s.data.take 8 ++ rest := (List.take_append_drop 8 s.data).symm
      have hrw : rest = host ++ rem := (List.takeWhile_append_dropWhile _ _).symm
      have hrem4 : rem = ".crm".data ++ t := by
        have := (List.take_append_drop 4 rem).symm
        rw [hcrm] at this
        exact this
      have htw : t = t.takeWhile Char.isDigit ++ ".dynamics.com".data := by
        have := (List.takeWhile_append_dropWhile (p := Char.isDigit) (l := t)).symm
        rw [hdyn] at this
        exact this
      rw [hs, h8, hrw, hrem4]
      conv_lhs => rw [htw]
      simp [List.append_assoc]
  · rintro ⟨host, ds, hne, hhost, hds, hdecomp⟩
    have hdotHost : isURLHostChar '.' = false := by decide
    have hdotDigit : Char.isDigit '.' = false := by decide
    have hlen8 : ("https://".data).length = 8 := by decide
    have hsplit : s.data =
        "https://".data ++ (host ++ ('.' :: ('c' :: 'r' :: 'm' ::
          (ds ++ ('.' :: "dynamics.com".data))))) := by
      rw [hdecomp]
      simp [List.append_assoc]
    have htake8 : s.data.take 8 = "https://".data := by
      rw [hsplit]; exact List.take_left' hlen8
    have hdrop8 : s.data.drop 8 = host ++ ('.' :: ('c' :: 'r' :: 'm' ::
        (ds ++ ('.' :: "dynamics.com".data)))) := by
      rw [hsplit]; exact List.drop_left' hlen8
    have htwHost : (s.data.drop 8).takeWhile isURLHostChar = host := by
      rw [hdrop8]
      exact takeWhile_append_not _ _ _ _ hhost hdotHost
    have hdwHost : (s.data.drop 8).dropWhile isURLHostChar =
        '.' :: ('c' :: 'r' :: 'm' :: (ds ++ ('.' :: "dynamics.com".data))) := by
      rw [hdrop8]
      exact dropWhile_append_not _ _ _ _ hhost hdotHost
    have hdwDigit : (ds ++ ('.' :: "dynamics.com".data)).dropWhile Char.isDigit =
        '.' :: "dynamics.com".data := dropWhile_append_not _ _ _ _ hds hdotDigit
    unfold validateEnvironmentURL regexMatchD365 crmTail goHasPfx
    simp only [Bool.and_eq_true, decide_eq_true_eq]
    refine ⟨?_, ?_, ?_, ?_, ?_⟩
    · simp only [List.isPrefixOf_iff_prefix]
      rw [hsplit]; exact List.prefix_append _ _
    · exact htake8
    · rw [htwHost]; exact hne
    · rw [hdwHost]; rfl
    · rw [hdwHost]
      show ((ds ++ ('.' :: "dynamics.com".data)).dropWhile Char.isDigit) =
        ".dynamics.com".data
      rw [hdwDigit]

/-- Witness for C8: the equivalence applied at a concrete accepted URL. -/
theorem thmC8_validateEnvironmentURL_witness :
    d365URLGrammar "https://myorg.crm.dynamics.com" :=
  (thmC8_validateEnvironmentURL.1 "https://myorg.crm.dynamics.com").mp
    (by decide)

/-! ## Configuration document (internal/config: `Config` and its methods) -/

/-- Model of Go `unicode.IsSpace`: `\t \n \v \f \r` and space, `U+0085`,
`U+00A0`, and the Unicode `White_Space` code points above Latin-1
(`U+1680`, `U+2000`-`U+200A`, `U+2028`, `U+2029`, `U+202F`, `U+205F`,
`U+3000`). -/
def goIsSpace (c : Char) : Bool :=
  c.toNat = 9 || c.toNat = 10 || c.toNat = 11 || c.toNat = 12 ||
  c.toNat = 13 || c.toNat = 32 || c.toNat = 0x85 || c.toNat = 0xA0 ||
  c.toNat = 0x1680 || (0x2000 ≤ c.toNat && c.toNat ≤ 0x200A) ||
  c.toNat = 0x2028 || c.toNat = 0x2029 || c.toNat = 0x202F ||
  c.toNat = 0x205F || c.toNat = 0x3000

/-- Model of Go `strings.TrimSpace` (leading and trailing
`unicode.IsSpace` characters removed), written on the character list so it
evaluates by kernel reduction. -/
def goTrimSpace (s : String) : String :=
  String.mk
    (((s.data.dropWhile goIsSpace).reverse.dropWhile goIsSpace).reverse)

/-- A Dynamics 365 environment entry of the configuration document. -/
structure Environment where
  name : String
  url : String
deriving DecidableEq

/-- A binding of one local file to one remote web resource. -/
structure Binding where
  environment : String
  localPath : String
  webResourceName : String
  webResourceID : String
  lastKnownVersion : String
  autoPublish : Bool
deriving DecidableEq

/-- The configuration document aggregate root. -/
structure Config where
  currentEnvironment : String
  environments : List Environment
  publisherPrefix : String
  bindings : List Binding
deriving DecidableEq

/-- The distinct `errors.New` values the configuration methods return. -/
inductive ConfigError where
  | emptyName
  | duplicateName
  | invalidURL
  | notFound
deriving DecidableEq

/-- Embedding of `Config.AddEnvironment`.  The method mutates the receiver
and then persists; the model returns the post-call document together with
the returned error (`none` on success).  Persistence itself (`Save`) is
disk I/O and is modelled as succeeding. -/
def addEnvironment (c : Config) (name url : String) : Config × Option ConfigError :=
  let name := goTrimSpace name
  let url := goTrimSpace url
  if name = "" then (c, some .emptyName)
  else if c.environments.any (fun e => e.name == name) then (c, some .duplicateName)
  else if validateEnvironmentURL url then
    ({ c with environments := c.environments ++ [⟨name, url⟩] }, none)
  else (c, some .invalidURL)

/-- Embedding of `Config.DeleteEnvironment`: drop every environment with
the given name, drop every binding of that environment, clear
`currentEnvironment` if it matched; `notFound` (and no mutation) when no
environment has the name. -/
def deleteEnvironment (c : Config) (name : String) : Config × Option ConfigError :=
  if c.environments.any (fun e => e.name == name) then
    ({ c with
        environments := c.environments.filter (fun e => e.name != name),
        bindings := c.bindings.filter (fun b => b.environment != name),
        currentEnvironment :=
          if c.currentEnvironment = name then "" else c.currentEnvironment },
      none)
  else (c, some .notFound)

/-- C6: deleting an existing environment removes exactly the environments
with that name, removes exactly the bindings of that environment, clears a
matching `currentEnvironment` (leaving a different one alone) and keeps the
publisher prefix; deleting an unknown name fails with `notFound` and leaves
the document untouched. -/
theorem thmC6_deleteEnvironment (c : Config) (name : String) :
    ((∃ e ∈ c.environments, e.name = name) →
      (deleteEnvironment c name).2 = none ∧
      (∀ e : Environment, e ∈ (deleteEnvironment c name).1.environments ↔
        (e ∈ c.environments ∧ e.name ≠ name)) ∧
      (∀ b : Binding, b ∈ (deleteEnvironment c name).1.bindings ↔
        (b ∈ c.bindings ∧ b.environment ≠ name)) ∧
      (deleteEnvironment c name).1.currentEnvironment =
        (if c.currentEnvironment = name then "" else c.currentEnvironment) ∧
      (deleteEnvironment c name).1.publisherPrefix = c.publisherPrefix)
    ∧ ((¬ ∃ e ∈ c.environments, e.name = name) →
      deleteEnvironment c name = (c, some .notFound)) := by
  have hany : c.environments.any (fun e => e.name == name) = true ↔
      ∃ e ∈ c.environments, e.name = name := by
    simp [List.any_eq_true]
  constructor
  · intro hex
    have h := hany.mpr hex
    unfold deleteEnvironment
    rw [if_pos h]
    refine ⟨rfl, ?_, ?_, rfl, rfl⟩
    · intro e
      simp [List.mem_filter]
    · intro b
      simp [List.mem_filter]
  · intro hnex
    have h : c.environments.any (fun e => e.name == name) = false := by
      rcases hb : c.environments.any (fun e => e.name == name) with _ | _
      · rfl
      · exact absurd (hany.mp hb) hnex
    unfold deleteEnvironment
    rw [if_neg (by simp [h])]

/-- A document with one environment and one binding, used to instantiate
the C6 theorem. -/
def prodConfig : Config :=
  ⟨"Production", [⟨"Production", "https://p.crm.dynamics.com"⟩], "new",
    [⟨"Production", "/tmp/a.js", "res", "R1", "1.0.0", true⟩]⟩

/-- Witness for C6: deleting `"Production"` from a concrete document
succeeds. -/
theorem thmC6_deleteEnvironment_witness :
    (deleteEnvironment prodConfig "Production").2 = none :=
  ((thmC6_deleteEnvironment prodConfig "Production").1
    ⟨⟨"Production", "https://p.crm.dynamics.com"⟩, by decide, rfl⟩).1

/-- C7 (amended): adding an environment whose trimmed name already exists
fails and leaves the document completely unchanged; the error is
`duplicateName` whenever the trimmed name is nonempty, and `emptyName` in
the degenerate case where it is empty. -/
theorem thmC7_addEnvironment_duplicate (c : Config) (name url : String)
    (h : ∃ e ∈ c.environments, e.name = goTrimSpace name) :
    (addEnvironment c name url).1 = c ∧
    (addEnvironment c name url).2 =
      some (if goTrimSpace name = "" then ConfigError.emptyName
            else ConfigError.duplicateName) := by
  unfold addEnvironment
  by_cases hn : goTrimSpace name = ""
  · rw [if_pos hn, if_pos hn]
    exact ⟨rfl, rfl⟩
  · have hany : c.environments.any (fun e => e.name == goTrimSpace name) = true := by
      simp only [List.any_eq_true]
      rcases h with ⟨e, he, hname⟩
      exact ⟨e, he, by simp [hname]⟩
    rw [if_neg hn, if_neg hn]
    simp only [hany, if_pos rfl]
    exact ⟨rfl, rfl⟩

/-- A document that already contains an environment named `"Dev"`. -/
def devConfig : Config :=
  ⟨"Dev", [⟨"Dev", "https://dev.crm.dynamics.com"⟩], "new", []⟩

/-- Witness for C7: the second `AddEnvironment("Dev", ...)` call fails with
the duplicate-name error and the concrete document is unchanged. -/
theorem thmC7_addEnvironment_duplicate_witness :
    (addEnvironment devConfig "Dev" "https://dev2.crm.dynamics.com").1 = devConfig ∧
    (addEnvironment devConfig "Dev" "https://dev2.crm.dynamics.com").2 =
      some (if goTrimSpace "Dev" = "" then ConfigError.emptyName
            else ConfigError.duplicateName) :=
  thmC7_addEnvironment_duplicate devConfig "Dev" "https://dev2.crm.dynamics.com"
    ⟨⟨"Dev", "https://dev.crm.dynamics.com"⟩, by decide, by decide⟩

/-- A document whose environment list contains an empty-named entry (such a
document is loadable from a hand-edited configuration file). -/
def emptyNameConfig : Config :=
  ⟨"", [⟨"", "https://x.crm.dynamics.com"⟩], "new", []⟩

/-- C7 counterexample: on a document containing an environment whose name
equals the trimmed input name (here both empty), `AddEnvironment` fails
with the empty-name error, not the duplicate-name error the claim
requires. -/
theorem thmC7_counterexample :
    (∃ e ∈ emptyNameConfig.environments, e.name = goTrimSpace "") ∧
    addEnvironment emptyNameConfig "" "https://y.crm.dynamics.com" =
      (emptyNameConfig, some ConfigError.emptyName) ∧
    ConfigError.emptyName ≠ ConfigError.duplicateName := by
  refine ⟨⟨⟨"", "https://x.crm.dynamics.com"⟩, by decide, by decide⟩, by decide, by decide⟩

/-! ## Watch engine debounce (watcher package, `handleChange`) -/

/-- Association-list lookup for the `debounce` map (Go map semantics: one
entry per key). -/
def lookupLast : List (String × Int) -> String -> Option Int
  | [], _ => none
  | (k, v) :: rest, path => if k = path then some v else lookupLast rest path

/-- Association-list store for `w.debounce[path] = now`. -/
def setLast : List (String × Int) -> String -> Int -> List (String × Int)
  | [], path, t => [(path, t)]
  | (k, v) :: rest, path, t =>
    if k = path then (k, t) :: rest else (k, v) :: setLast rest path t

/-- The watcher's debounce interval, in milliseconds
(`debounceMs: 300 * time.Millisecond`). -/
def debounceMs : Int := 300

/-- Embedding of `Watcher.handleChange`: timestamps are integer
milliseconds; the returned Boolean is whether `onChange` fires (the change
is emitted). -/
def handleChange (st : List (String × Int)) (path : String) (now : Int) :
    List (String × Int) × Bool :=
  match lookupLast st path with
  | some lastChange =>
    if now - lastChange < debounceMs then (st, false)
    else (setLast st path now, true)
  | none => (setLast st path now, true)

theorem lookupLast_setLast (st : List (String × Int)) (p : String) (t : Int) :
    lookupLast (setLast st p t) p = some t := by
  induction st with
  | nil => simp [setLast, lookupLast]
  | cons kv rest ih =>
    rcases kv with ⟨k, v⟩
    by_cases hk : k = p <;> simp [setLast, lookupLast, hk, ih]

/-- C9: an event within 300 ms of the last emitted change for the path is
suppressed and leaves the state unchanged; an event at or beyond 300 ms is
emitted and updates the last-trigger time; a first event on a fresh path is
emitted; consequently two events 100 ms apart yield exactly one emission
and two events 400 ms apart yield two. -/
theorem thmC9_debounce :
    (∀ (st : List (String × Int)) (p : String) (now last : Int),
      lookupLast st p = some last → now - last < 300 →
      handleChange st p now = (st, false))
    ∧ (∀ (st : List (String × Int)) (p : String) (now last : Int),
      lookupLast st p = some last → 300 ≤ now - last →
      handleChange st p now = (setLast st p now, true) ∧
      lookupLast (handleChange st p now).1 p = some now)
    ∧ (∀ (st : List (String × Int)) (p : String) (now : Int),
      lookupLast st p = none → handleChange st p now = (setLast st p now, true))
    ∧ (∀ (st : List (String × Int)) (p : String) (t : Int),
      lookupLast st p = none →
      (handleChange st p t).2 = true ∧
      (handleChange (handleChange st p t).1 p (t + 100)).2 = false)
    ∧ (∀ (st : List (String × Int)) (p : String) (t : Int),
      lookupLast st p = none →
      (handleChange st p t).2 = true ∧
      (handleChange (handleChange st p t).1 p (t + 400)).2 = true) := by
  have hsupp : ∀ (st : List (String × Int)) (p : String) (now last : Int),
      lookupLast st p = some last → now - last < 300 →
      handleChange st p now = (st, false) := by
    intro st p now last hl hlt
    unfold handleChange
    rw [hl]
    simp [debounceMs, hlt]
  have hemit : ∀ (st : List (String × Int)) (p : String) (now last : Int),
      lookupLast st p = some last → 300 ≤ now - last →
      handleChange st p now = (setLast st p now, true) := by
    intro st p now last hl hge
    unfold handleChange
    rw [hl]
    have : ¬ now - last < debounceMs := by simp [debounceMs]; omega
    simp [this]
  have hfresh : ∀ (st : List (String × Int)) (p : String) (now : Int),
      lookupLast st p = none → handleChange st p now = (setLast st p now, true) := by
    intro st p now hl
    unfold handleChange
    rw [hl]
  refine ⟨hsupp, ?_, hfresh, ?_, ?_⟩
  · intro st p now last hl hge
    refine ⟨hemit st p now last hl hge, ?_⟩
    rw [hemit st p now last hl hge]
    exact lookupLast_setLast st p now
  · intro st p t hl
    rw [hfresh st p t hl]
    refine ⟨rfl, ?_⟩
    have h2 := hsupp (setLast st p t) p (t + 100) t (lookupLast_setLast st p t)
      (by omega)
    rw [h2]
  · intro st p t hl
    rw [hfresh st p t hl]
    refine ⟨rfl, ?_⟩
    have h2 := hemit (setLast st p t) p (t + 400) t (lookupLast_setLast st p t)
      (by omega)
    rw [h2]

/-- Witness for C9: a fresh path emits at time 0, and a second event 100 ms
later is suppressed. -/
theorem thmC9_debounce_witness :
    (handleChange [] "a.js" 0).2 = true ∧
    (handleChange (handleChange [] "a.js" 0).1 "a.js" 100).2 = false :=
  thmC9_debounce.2.2.2.1 [] "a.js" 0 rfl

/-! ## Credential store token file path (auth package, `tokenFilePath`) -/

/-- Model of Go `strings.ReplaceAll(s, old, new)` for one-character
patterns. -/
def replaceChar (old new : Char) (s : String) : String :=
  String.mk (s.data.map (fun c => if c = old then new else c))

/-- The sanitised environment name used in the token file name:
`ReplaceAll(envName, "/", "_")` then `ReplaceAll(.., "\\", "_")`. -/
def safeTokenName (envName : String) : String :=
  replaceChar '\\' '_' (replaceChar '/' '_' envName)

/-- Embedding of `tokenFilePath`: `filepath.Join(configDir,
"token-<safeName>.json")`, with `Join` modelled as inserting a single
separator (the sanitised file name contains no separators or dots beyond
the literal ones, so `Join` performs no further cleaning). -/
def tokenFilePath (configDir envName : String) : String :=
  configDir ++ "/token-" ++ safeTokenName envName ++ ".json"

theorem safeTokenName_id (n : String)
    (hn : ∀ c ∈ n.data, c ≠ '/' ∧ c ≠ '\\') : safeTokenName n = n := by
  unfold safeTokenName replaceChar
  apply String.ext
  simp only [List.map_map]
  have : ∀ c ∈ n.data,
      ((fun c => if c = '\\' then '_' else c) ∘ fun c => if c = '/' then '_' else c) c =
        id c := by
    intro c hc
    rcases hn c hc with ⟨h1, h2⟩
    simp [Function.comp, h1, h2]
  rw [List.map_congr_left this, List.map_id]

/-- C10 counterexample: the distinct environment names `"a/b"` and `"a_b"`
map to the same token file path, so per-environment token files can
collide. -/
theorem thmC10_counterexample :
    ("a/b" : String) ≠ "a_b" ∧
    tokenFilePath "cfg" "a/b" = tokenFilePath "cfg" "a_b" := by
  refine ⟨by decide, ?_⟩
  apply String.ext
  decide

/-- C10 (amended): token file paths are keyed by the sanitised environment
name, so two distinct names collide only when sanitisation identifies
them; distinct names containing neither `/` nor `\\` never collide. -/
theorem thmC10_tokenFilePath_injective (configDir n1 n2 : String)
    (h1 : ∀ c ∈ n1.data, c ≠ '/' ∧ c ≠ '\\')
    (h2 : ∀ c ∈ n2.data, c ≠ '/' ∧ c ≠ '\\')
    (hne : n1 ≠ n2) :
    tokenFilePath configDir n1 ≠ tokenFilePath configDir n2 := by
  intro heq
  unfold tokenFilePath at heq
  rw [safeTokenName_id n1 h1, safeTokenName_id n2 h2] at heq
  have hdata := congrArg String.data heq
  simp only [String.data_append] at hdata
  have hmid := List.append_cancel_right hdata
  have hn := List.append_cancel_left hmid
  exact hne (String.ext hn)

/-- Witness for C10: the amended injectivity applied to `"Dev"` and
`"Prod"`. -/
theorem thmC10_tokenFilePath_injective_witness :
    tokenFilePath "cfg" "Dev" ≠ tokenFilePath "cfg" "Prod" :=
  thmC10_tokenFilePath_injective "cfg" "Dev" "Prod" (by decide) (by decide)
    (by decide)

/-! ## Binding store operations (internal/config) -/

/-- Embedding of `Config.GetBindingsForEnvironment`. -/
def getBindingsForEnvironment (c : Config) (envName : String) : List Binding :=
  c.bindings.filter (fun b => b.environment == envName)

/-- Embedding of `Config.GetBinding`: first binding with the identity key
`(environment, webResourceID)`. -/
def getBinding (c : Config) (envName webResourceID : String) : Option Binding :=
  c.bindings.find?
    (fun b => b.environment == envName && b.webResourceID == webResourceID)

/-- The loop of `Config.AddBinding`: replace the first binding with the
same identity key, appending when none matches. -/
def upsertBinding : List Binding -> Binding -> List Binding
  | [], binding => [binding]
  | b :: bs, binding =>
    if b.environment = binding.environment ∧
        b.webResourceID = binding.webResourceID then
      binding :: bs
    else b :: upsertBinding bs binding

/-- Embedding of `Config.AddBinding` (upsert by identity key; `Save`
modelled as succeeding). -/
def addBinding (c : Config) (binding : Binding) : Config :=
  { c with bindings := upsertBinding c.bindings binding }

/-- The loop of `Config.UpdateBindingVersion`: update the first binding
with the identity key, `none` when no binding matches. -/
def updateFirstVersion : List Binding -> String -> String -> String -> Option (List Binding)
  | [], _, _, _ => none
  | b :: bs, env, id, v =>
    if b.environment = env ∧ b.webResourceID = id then
      some ({ b with lastKnownVersion := v } :: bs)
    else (updateFirstVersion bs env id v).map (b :: ·)

/-- Embedding of `Config.UpdateBindingVersion`.  The returned Boolean is
whether the call succeeded; `saveOK` is the oracle for the final `Save`
(disk write).  When `Save` fails the in-memory document keeps the new
version but the method returns the error. -/
def updateBindingVersion (saveOK : Bool) (c : Config)
    (envName webResourceID version : String) : Config × Bool :=
  match updateFirstVersion c.bindings envName webResourceID version with
  | some bs => ({ c with bindings := bs }, saveOK)
  | none => (c, false)

/-! ## Publish pipeline (internal/tui/update.go) -/

/-- A remote web resource as listed by the client. -/
structure WebResource where
  id : String
  name : String
deriving DecidableEq

/-- The `publishResultMsg` fields the claims depend on (`hasErr` models
`err != nil`). -/
structure PublishResultMsg where
  success : Bool
  hasErr : Bool
  path : String
  resourceID : String
deriving DecidableEq

/-- The message a publish command can return: a generic `errMsg`, a
`publishResultMsg`, or `nil` (no action). -/
inductive PublishOutcome where
  | errorMsg
  | result (r : PublishResultMsg)
  | noAction
deriving DecidableEq

/-- Embedding of `Model.publishResource` (the manual "publish now" path).
`read i` tells whether the i-th read of the local file would succeed (the
code performs a single `os.ReadFile`, so only `read 0` is consulted);
`updateOK`/`pubOK` are the remote content-update and publish/activate
outcomes, and `saveOK` is the oracle for the persist step's disk write.
The returned configuration is the in-memory document after the call; the
error returned by `UpdateBindingVersion` is discarded, exactly as in the
source. -/
def publishResource (c : Config) (read : Nat -> Bool)
    (updateOK pubOK saveOK : Bool) (resID : String) : PublishOutcome × Config :=
  match getBinding c c.currentEnvironment resID with
  | none => (.errorMsg, c)
  | some binding =>
    if read 0 = false then
      (.result ⟨false, true, binding.localPath, resID⟩, c)
    else if updateOK = false then
      (.result ⟨false, true, binding.localPath, resID⟩, c)
    else if pubOK = false then
      (.result ⟨false, true, binding.localPath, resID⟩, c)
    else
      let newVersion := incrementVersion binding.lastKnownVersion
      let persisted := updateBindingVersion saveOK c c.currentEnvironment resID newVersion
      (.result ⟨true, false, binding.localPath, resID⟩, persisted.1)

/-- The read-retry loop of `Model.handleFileChange`: up to 5 attempts,
sleeping 50 ms before every attempt after the first.  Returns (success,
attempts made, list of sleeps performed in ms). -/
def retryRead (read : Nat -> Bool) : Bool × Nat × List Nat :=
  match (List.range 5).find? (fun i => read i) with
  | some i => (true, i + 1, List.replicate i 50)
  | none => (false, 5, List.replicate 4 50)

/-- The binding/resource scan of `Model.handleFileChange`: the first
auto-publish binding whose (absolute) local path matches, paired with the
first listed resource carrying its resource id; a binding whose resource is
not in the list is skipped and the scan continues.  `filepath.Abs` is
modelled as the identity (paths are taken to be absolute already). -/
def findAutoBinding : List Binding -> List WebResource -> String -> Option (Binding × WebResource)
  | [], _, _ => none
  | b :: bs, resources, path =>
    if b.localPath = path ∧ b.autoPublish = true then
      match resources.find? (fun r => r.id == b.webResourceID) with
      | some res => some (b, res)
      | none => findAutoBinding bs resources path
    else findAutoBinding bs resources path

/-- Embedding of `Model.handleFileChange` (the debounced auto-publish
path), with the same oracles as `publishResource`. -/
def handleFileChange (c : Config) (resources : List WebResource)
    (read : Nat -> Bool) (updateOK pubOK saveOK : Bool) (path : String) :
    PublishOutcome × Config :=
  match findAutoBinding (getBindingsForEnvironment c c.currentEnvironment)
      resources path with
  | none => (.noAction, c)
  | some (b, res) =>
    if (retryRead read).1 = false then
      (.result ⟨false, true, b.localPath, res.id⟩, c)
    else if updateOK = false then
      (.result ⟨false, true, b.localPath, res.id⟩, c)
    else if pubOK = false then
      (.result ⟨false, true, b.localPath, res.id⟩, c)
    else
      let newVersion := incrementVersion b.lastKnownVersion
      let persisted := updateBindingVersion saveOK c c.currentEnvironment res.id newVersion
      (.result ⟨true, false, b.localPath, res.id⟩, persisted.1)

/-- C3 (amended): when the remote content-update and publish steps succeed
but the persist step fails, both publish paths still report the same
unqualified success message (`success = true`, no error); the persist
error is discarded, and no distinguishable partial-success result exists. -/
theorem thmC3_persist_failure_silent :
    (∀ (c : Config) (read : Nat -> Bool) (resID : String) (b : Binding),
      getBinding c c.currentEnvironment resID = some b → read 0 = true →
      (publishResource c read true true false resID).1 =
        .result ⟨true, false, b.localPath, resID⟩)
    ∧ (∀ (c : Config) (resources : List WebResource) (read : Nat -> Bool)
        (path : String) (b : Binding) (res : WebResource),
      findAutoBinding (getBindingsForEnvironment c c.currentEnvironment)
          resources path = some (b, res) →
      (retryRead read).1 = true →
      (handleFileChange c resources read true true false path).1 =
        .result ⟨true, false, b.localPath, res.id⟩) := by
  constructor
  · intro c read resID b hgb hread
    unfold publishResource
    rw [hgb]
    simp [hread]
  · intro c resources read path b res hfind hread
    unfold handleFileChange
    rw [hfind]
    simp [hread]

/-- C3 counterexample: with a concrete bound document, all remote steps
succeeding and the persist write failing, the publish result is the very
same unqualified success as when persisting succeeds — it carries no
persist-failure marker at all. -/
theorem thmC3_counterexample :
    (updateBindingVersion false prodConfig "Production" "R1"
        (incrementVersion "1.0.0")).2 = false ∧
    (publishResource prodConfig (fun _ => true) true true false "R1").1 =
      .result ⟨true, false, "/tmp/a.js", "R1"⟩ ∧
    publishResource prodConfig (fun _ => true) true true false "R1" =
      publishResource prodConfig (fun _ => true) true true true "R1" := by
  refine ⟨by decide, by decide, ?_⟩
  decide

/-- Witness for C3: the amended theorem applied to the concrete document. -/
theorem thmC3_persist_failure_silent_witness :
    (publishResource prodConfig (fun _ => true) true true false "R1").1 =
      .result ⟨true, false, "/tmp/a.js", "R1"⟩ :=
  thmC3_persist_failure_silent.1 prodConfig (fun _ => true) "R1"
    ⟨"Production", "/tmp/a.js", "res", "R1", "1.0.0", true⟩ (by decide) rfl

/-- C4 (amended): the debounced auto-publish path retries the local read up
to five times, sleeping 50 ms before every attempt after the first, and
reports a read failure only when all five attempts fail; the manual
"publish now" path instead performs exactly one read — its outcome depends
only on the first read attempt. -/
theorem thmC4_read_retry :
    (∀ read : Nat -> Bool, (∃ i, i < 5 ∧ read i = true) →
      (retryRead read).1 = true)
    ∧ (∀ read : Nat -> Bool, (∀ i, i < 5 → read i = false) →
      retryRead read = (false, 5, List.replicate 4 50))
    ∧ (∀ read : Nat -> Bool, (retryRead read).2.1 ≤ 5 ∧
      (retryRead read).2.2 = List.replicate ((retryRead read).2.1 - 1) 50)
    ∧ (∀ (c : Config) (resources : List WebResource) (read : Nat -> Bool)
        (updateOK pubOK saveOK : Bool) (path : String) (b : Binding)
        (res : WebResource),
      findAutoBinding (getBindingsForEnvironment c c.currentEnvironment)
          resources path = some (b, res) →
      (∀ i, i < 5 → read i = false) →
      (handleFileChange c resources read updateOK pubOK saveOK path).1 =
        .result ⟨false, true, b.localPath, res.id⟩)
    ∧ (∀ (c : Config) (read readAlt : Nat -> Bool) (u pb sv : Bool)
        (resID : String), read 0 = readAlt 0 →
      publishResource c read u pb sv resID =
        publishResource c readAlt u pb sv resID) := by
  have hfail : ∀ read : Nat -> Bool, (∀ i, i < 5 → read i = false) →
      retryRead read = (false, 5, List.replicate 4 50) := by
    intro read hall
    unfold retryRead
    have hnone : (List.range 5).find? (fun i => read i) = none := by
      rw [List.find?_eq_none]
      intro i hi
      simp [hall i (List.mem_range.mp hi)]
    rw [hnone]
  refine ⟨?_, hfail, ?_, ?_, ?_⟩
  · intro read ⟨i, hi, hr⟩
    unfold retryRead
    rcases hf : (List.range 5).find? (fun i => read i) with _ | j
    · rw [List.find?_eq_none] at hf
      exact absurd hr (by simpa using hf i (List.mem_range.mpr hi))
    · rfl
  · intro read
    unfold retryRead
    rcases hf : (List.range 5).find? (fun i => read i) with _ | j
    · simp
    · have hj : j < 5 := List.mem_range.mp (List.mem_of_find?_eq_some hf)
      simp [Nat.succ_le_of_lt hj]
  · intro c resources read updateOK pubOK saveOK path b res hfind hall
    unfold handleFileChange
    rw [hfind, hfail read hall]
    rfl
  · intro c read readAlt u pb sv resID h0
    unfold publishResource
    rw [h0]

/-- C4 counterexample: a read oracle that fails on the first attempt but
succeeds from the second on.  Five-attempt reading succeeds (at attempt
two, after one 50 ms sleep), yet the manual "publish now" path reports a
failed publish: it performs a single read attempt and never retries. -/
theorem thmC4_counterexample :
    retryRead (fun i => decide (1 ≤ i)) = (true, 2, [50]) ∧
    (publishResource prodConfig (fun i => decide (1 ≤ i)) true true true
        "R1").1 = .result ⟨false, true, "/tmp/a.js", "R1"⟩ := by
  decide

/-- Witness for C4: the amended theorem applied to an always-failing read
oracle. -/
theorem thmC4_read_retry_witness :
    retryRead (fun _ => false) = (false, 5, List.replicate 4 50) :=
  thmC4_read_retry.2.1 (fun _ => false) (fun _ _ => rfl)

/-! ## Watch set maintained by the orchestrator (setupWatchers / key "a") -/

/-- The orchestrator state the watch-set invariant speaks about: the
configuration document plus the set of watched file paths. -/
structure WatchModel where
  cfg : Config
  watchSet : List String
deriving DecidableEq

/-- Embedding of `Watcher.AddFile` at the watch-set level (no-op when the
path is already tracked). -/
def addFileWatch (ws : List String) (path : String) : List String :=
  if path ∈ ws then ws else ws ++ [path]

/-- The watch set built by `Model.setupWatchers`: the local paths of the
`autoPublish` bindings of the current environment, added in order
(`filepath.Abs` modelled as the identity). -/
def setupWatchSet (c : Config) : List String :=
  (getBindingsForEnvironment c c.currentEnvironment).foldl
    (fun ws b => if b.autoPublish = true then addFileWatch ws b.localPath else ws) []

/-- Embedding of the `setupWatchers` command result being applied: a fresh
watcher replaces the old one, so the watch set is rebuilt from scratch. -/
def setupWatchers (m : WatchModel) : WatchModel :=
  ⟨m.cfg, setupWatchSet m.cfg⟩

/-- Embedding of the "a" key handler (toggle auto-publish): the binding's
flag is flipped and stored through `AddBinding`, and the watcher is not
touched. -/
def toggleAutoPublish (m : WatchModel) (resID : String) : WatchModel :=
  match getBinding m.cfg m.cfg.currentEnvironment resID with
  | some b => ⟨addBinding m.cfg { b with autoPublish := !b.autoPublish }, m.watchSet⟩
  | none => m

/-- The claimed invariant: the watched paths are exactly the local paths of
the `autoPublish = true` bindings of the currently selected environment. -/
def watchInv (m : WatchModel) : Prop :=
  ∀ p : String, p ∈ m.watchSet ↔ ∃ b ∈ m.cfg.bindings,
    b.environment = m.cfg.currentEnvironment ∧ b.autoPublish = true ∧
    b.localPath = p

theorem mem_addFileWatch (ws : List String) (q p : String) :
    p ∈ addFileWatch ws q ↔ p ∈ ws ∨ p = q := by
  unfold addFileWatch
  by_cases h : q ∈ ws
  · rw [if_pos h]
    constructor
    · exact fun hp => Or.inl hp
    · rintro (hp | rfl) <;> assumption
  · rw [if_neg h]
    simp

theorem mem_setupFold (bs : List Binding) (ws : List String) (p : String) :
    (p ∈ bs.foldl
        (fun ws b => if b.autoPublish = true then addFileWatch ws b.localPath else ws)
        ws) ↔
      (p ∈ ws ∨ ∃ b ∈ bs, b.autoPublish = true ∧ b.localPath = p) := by
  induction bs generalizing ws with
  | nil => simp
  | cons b rest ih =>
    simp only [List.foldl_cons]
    rw [ih]
    by_cases hb : b.autoPublish = true
    · rw [if_pos hb, mem_addFileWatch]
      constructor
      · rintro ((hp | rfl) | ⟨b2, hb2, h2⟩)
        · exact Or.inl hp
        · exact Or.inr ⟨b, by simp, hb, rfl⟩
        · exact Or.inr ⟨b2, by simp [hb2], h2⟩
      · rintro (hp | ⟨b2, hb2, hap, hlp⟩)
        · exact Or.inl (Or.inl hp)
        · rcases List.mem_cons.mp hb2 with rfl | hb2
          · exact Or.inl (Or.inr hlp.symm)
          · exact Or.inr ⟨b2, hb2, hap, hlp⟩
    · rw [if_neg hb]
      constructor
      · rintro (hp | ⟨b2, hb2, h2⟩)
        · exact Or.inl hp
        · exact Or.inr ⟨b2, by simp [hb2], h2⟩
      · rintro (hp | ⟨b2, hb2, hap, hlp⟩)
        · exact Or.inl hp
        · rcases List.mem_cons.mp hb2 with rfl | hb2
          · exact absurd hap hb
          · exact Or.inr ⟨b2, hb2, hap, hlp⟩

theorem setupWatchSet_inv (c : Config) : watchInv ⟨c, setupWatchSet c⟩ := by
  intro p
  unfold setupWatchSet
  rw [mem_setupFold]
  simp only [List.not_mem_nil, false_or]
  constructor
  · rintro ⟨b, hb, hap, hlp⟩
    have := List.mem_filter.mp hb
    refine ⟨b, this.1, ?_, hap, hlp⟩
    simpa using this.2
  · rintro ⟨b, hb, henv, hap, hlp⟩
    refine ⟨b, List.mem_filter.mpr ⟨hb, by simpa using henv⟩, hap, hlp⟩

theorem getBinding_some_keys (c : Config) (env id : String) (b : Binding)
    (h : getBinding c env id = some b) :
    b.environment = env ∧ b.webResourceID = id := by
  have hp := List.find?_some h
  simpa [Bool.and_eq_true] using hp

theorem find?_upsertBinding (bs : List Binding) (binding : Binding) :
    (upsertBinding bs binding).find?
        (fun b => b.environment == binding.environment &&
          b.webResourceID == binding.webResourceID) = some binding := by
  induction bs with
  | nil => simp [upsertBinding, List.find?]
  | cons b rest ih =>
    by_cases h : b.environment = binding.environment ∧
        b.webResourceID = binding.webResourceID
    · rw [upsertBinding, if_pos h]
      simp [List.find?]
    · rw [upsertBinding, if_neg h]
      rw [List.find?_cons_of_neg, ih]
      simp only [Bool.and_eq_true, beq_iff_eq]
      exact h

/-- C5 (amended): after `setupWatchers` rebuilds the watcher (as happens on
every environment switch once resources load), the watch set reflects
exactly the `autoPublish = true` bindings of the current environment; but
toggling a binding's auto-publish flag changes only the configuration and
leaves the watch set untouched, so the correspondence is re-established
only at the next rebuild. -/
theorem thmC5_watchset :
    (∀ m : WatchModel, watchInv (setupWatchers m))
    ∧ (∀ (m : WatchModel) (resID : String),
      (toggleAutoPublish m resID).watchSet = m.watchSet)
    ∧ (∀ (m : WatchModel) (resID : String) (b : Binding),
      getBinding m.cfg m.cfg.currentEnvironment resID = some b →
      getBinding (toggleAutoPublish m resID).cfg m.cfg.currentEnvironment resID =
        some { b with autoPublish := !b.autoPublish }) := by
  refine ⟨?_, ?_, ?_⟩
  · intro m
    exact setupWatchSet_inv m.cfg
  · intro m resID
    unfold toggleAutoPublish
    rcases h : getBinding m.cfg m.cfg.currentEnvironment resID with _ | b <;> rfl
  · intro m resID b h
    obtain ⟨henv, hid⟩ := getBinding_some_keys _ _ _ _ h
    unfold toggleAutoPublish
    rw [h]
    show getBinding (addBinding m.cfg { b with autoPublish := !b.autoPublish })
        m.cfg.currentEnvironment resID = _
    unfold getBinding addBinding
    have := find?_upsertBinding m.cfg.bindings { b with autoPublish := !b.autoPublish }
    simpa [henv, hid] using this

/-- C5 counterexample: starting from a freshly set-up watcher over a
document with one auto-publish binding (a reachable orchestrator state),
toggling that binding's auto-publish flag leaves its path watched although
the current environment no longer has any `autoPublish = true` binding —
the watch set no longer corresponds to the bindings. -/
theorem thmC5_counterexample :
    watchInv (setupWatchers ⟨prodConfig, []⟩) ∧
    ¬ watchInv (toggleAutoPublish (setupWatchers ⟨prodConfig, []⟩) "R1") := by
  constructor
  · exact setupWatchSet_inv prodConfig
  · intro hinv
    have h1 : "/tmp/a.js" ∈
        (toggleAutoPublish (setupWatchers ⟨prodConfig, []⟩) "R1").watchSet := by
      decide
    have h2 := (hinv "/tmp/a.js").mp h1
    have h3 : ¬ ∃ b ∈ (toggleAutoPublish (setupWatchers ⟨prodConfig, []⟩)
        "R1").cfg.bindings,
        b.environment = (toggleAutoPublish (setupWatchers ⟨prodConfig, []⟩)
          "R1").cfg.currentEnvironment ∧
        b.autoPublish = true ∧ b.localPath = "/tmp/a.js" := by
      decide
    exact h3 h2

/-- Witness for C5: the amended theorem's toggle conjunct applied to the
concrete document. -/
theorem thmC5_watchset_witness :
    getBinding (toggleAutoPublish ⟨prodConfig, ["/tmp/a.js"]⟩ "R1").cfg
        "Production" "R1" =
      some ⟨"Production", "/tmp/a.js", "res", "R1", "1.0.0", false⟩ :=
  thmC5_watchset.2.2 ⟨prodConfig, ["/tmp/a.js"]⟩ "R1"
    ⟨"Production", "/tmp/a.js", "res", "R1", "1.0.0", true⟩ (by decide)

end XrmPublisher
